import Mathlib

/-
  Verification of the CAD-message field-extraction pipeline
  (generic_parser_copy.py) against its design specification.

  The program is embedded shallowly: message text is a list of characters,
  each extractor function is translated from the corresponding Python
  function, and Python's `re.search` calls are translated into explicit
  leftmost-match scans.  Each of the five field patterns has the shape
  "literal marker, character-class runs, greedy `.*` bounded by a literal
  terminator (or a lookahead)"; for such patterns `re.search` semantics are:
  the match position is the least index at which the whole pattern can
  match, and a greedy `.*` followed by a terminator/lookahead extends to the
  LAST position at which the terminator matches.  Those two searches are
  modelled by `findFirstFrom` and `findLastBelow` below.

  Character classes (`\d`, `\s`, `[A-Z]`) are modelled over their ASCII
  meaning, which is exact for the dispatch-message alphabet the program
  processes.  The wall clock read by `datetime.datetime.today()` is modelled
  as an explicit `DateTime` parameter threaded into the pipeline.
-/

abbrev Str := List Char

/-- Python `\d` (ASCII range): code points 48..57. -/
def isDigitC (c : Char) : Bool := decide (48 ≤ c.toNat ∧ c.toNat ≤ 57)

/-- Python `\s` (ASCII part): space, tab, newline, carriage return,
vertical tab, form feed.  Also the class stripped by `str.strip()`. -/
def isSpaceC (c : Char) : Bool :=
  decide (c.toNat = 32 ∨ c.toNat = 9 ∨ c.toNat = 10 ∨ c.toNat = 13 ∨
          c.toNat = 11 ∨ c.toNat = 12)

/-- Python `[A-Z]`: code points 65..90. -/
def isUpperC (c : Char) : Bool := decide (65 ≤ c.toNat ∧ c.toNat ≤ 90)

/-- Least `j` with `i ≤ j < i + fuel` and `p j = true` (the `re.search`
leftmost-match scan). -/
def findFirstFrom (p : Nat → Bool) : Nat → Nat → Option Nat
  | _, 0 => none
  | i, fuel + 1 => if p i then some i else findFirstFrom p (i + 1) fuel

/-- Greatest `j < n` with `p j = true` (the landing position of a greedy
`.*` that backtracks from the right). -/
def findLastBelow (p : Nat → Bool) : Nat → Option Nat
  | 0 => none
  | n + 1 => if p n then some n else findLastBelow p n

/-- `pat` occurs in `s` starting at index `i`. -/
def occursAt (pat s : Str) (i : Nat) : Bool := List.isPrefixOf pat (List.drop i s)

/-- The character at index `k` of `s` exists and satisfies `p`. -/
def headSat (p : Char → Bool) (s : Str) (k : Nat) : Bool :=
  match List.drop k s with
  | d :: _ => p d
  | [] => false

/-- The character at index `k` of `s` is exactly `c`. -/
def charAtIs (s : Str) (k : Nat) (c : Char) : Bool :=
  headSat (fun d => d = c) s k

/-- The half-open slice `s[a..b)`. -/
def extract (s : Str) (a b : Nat) : Str := List.take (b - a) (List.drop a s)

/-- Python `str.strip()`: remove leading and trailing whitespace. -/
def stripL (s : Str) : Str :=
  List.reverse (List.dropWhile isSpaceC (List.reverse (List.dropWhile isSpaceC s)))

/-- Python `str.split(sep)` for a non-empty separator, fuelled for
structural recursion; `splitOnSep` supplies sufficient fuel. -/
def splitOnSepF (sep : Str) : Nat → Str → List Str
  | _, [] => [[]]
  | 0, s => [s]
  | fuel + 1, c :: rest =>
    if List.isPrefixOf sep (c :: rest) && !sep.isEmpty then
      [] :: splitOnSepF sep fuel (List.drop (sep.length - 1) rest)
    else
      match splitOnSepF sep fuel rest with
      | [] => [[c]]
      | t :: ts => (c :: t) :: ts

/-- Python `str.split(sep)`. -/
def splitOnSep (sep s : Str) : List Str := splitOnSepF sep s.length s

/-- Python `re.sub(r"\s+\)", ")", s)`: every maximal whitespace run that is
immediately followed by a closing parenthesis is deleted together with its
run, leaving the parenthesis.  Fuelled; `collapseWsParen` supplies
sufficient fuel. -/
def collapseWsParenF : Nat → Str → Str
  | _, [] => []
  | 0, s => s
  | fuel + 1, c :: rest =>
    if isSpaceC c then
      match List.dropWhile isSpaceC rest with
      | ')' :: tail => ')' :: collapseWsParenF fuel tail
      | _ => c :: collapseWsParenF fuel rest
    else c :: collapseWsParenF fuel rest

/-- Python `re.sub(r"\s+\)", ")", s)`. -/
def collapseWsParen (s : Str) : Str := collapseWsParenF s.length s

/-! ### Marker literals used by the five patterns -/

def numberM : Str := "Incident No ".toList
def callTypeM : Str := "Call Type ".toList
def locM : Str := "Loc ".toList
def cityM : Str := "City".toList
def unitsM : Str := "Units".toList
def starsM : Str := "***".toList
def premiseM : Str := "Premise".toList
def remarksM : Str := "Remarks ".toList
def prtyM : Str := "Prty".toList
def commaSp : Str := ", ".toList

/-! ### The extractor functions (src/generic_parser_copy.py) -/

/-- Pattern `Incident No (?P<number>\d+)` matches at `i` iff the literal
marker occurs at `i` and a digit follows it. -/
def numCand (s : Str) (i : Nat) : Bool :=
  occursAt numberM s i && headSat isDigitC s (i + 12)

/-- `incident_number_custom_function` (lines 106-135): leftmost match of
`Incident No (?P<number>\d+)`; the group is the maximal digit run, then
`.strip()`.  A pattern miss is logged and `None` is returned. -/
def incident_number_custom_function (s : Str) : Option Str :=
  match findFirstFrom (numCand s) 0 (s.length + 1) with
  | none => none
  | some i => some (stripL (List.takeWhile isDigitC (List.drop (i + 12) s)))

def ctAfterMarker (s : Str) (i : Nat) : Str := List.drop (i + 10) s

/-- Length of the greedy `[A-Z]+` run after `Call Type `. -/
def ctUpperLen (s : Str) (i : Nat) : Nat :=
  (List.takeWhile isUpperC (ctAfterMarker s i)).length

/-- Length of the greedy `\s+` run after the `[A-Z]+` run. -/
def ctSpaceLen (s : Str) (i : Nat) : Nat :=
  (List.takeWhile isSpaceC (List.drop (ctUpperLen s i) (ctAfterMarker s i))).length

/-- Index of the `\(` required after the two runs. -/
def ctOpenPos (s : Str) (i : Nat) : Nat := i + 10 + ctUpperLen s i + ctSpaceLen s i

/-- Candidate closing positions for the greedy `(?s).*\)`. -/
def ctCloseCand (s : Str) (i : Nat) (j : Nat) : Bool :=
  decide (ctOpenPos s i + 1 ≤ j) && charAtIs s j ')'

/-- Pattern `Call Type (?P<call_type>[A-Z]+\s+\((?s).*\))` matches at `i`:
marker, non-empty uppercase run, non-empty whitespace run, `(`, and a `)`
somewhere later.  (`[A-Z]` and `\s` are disjoint from each other and from
`\(`, so the backtracking match is exactly the maximal-run match.) -/
def ctCand (s : Str) (i : Nat) : Bool :=
  occursAt callTypeM s i && decide (0 < ctUpperLen s i) &&
  decide (0 < ctSpaceLen s i) && charAtIs s (ctOpenPos s i) '(' &&
  (findLastBelow (ctCloseCand s i) (s.length + 1)).isSome

/-- `call_type_custom_function` (lines 83-103): leftmost match; the greedy
`.*` runs to the last `)`; then `.strip()` and `re.sub(r"\s+\)", ")", ·)`.
A pattern miss is logged and `None` is returned. -/
def call_type_custom_function (s : Str) : Option Str :=
  match findFirstFrom (ctCand s) 0 (s.length + 1) with
  | none => none
  | some i =>
    match findLastBelow (ctCloseCand s i) (s.length + 1) with
    | some j => some (collapseWsParen (stripL (extract s (i + 10) (j + 1))))
    | none => none

/-- `coordinates_custom_function` (lines 138-144): a stub that always
returns the fixed placeholder coordinate string. -/
def coordinates_custom_function (query : Str) : Str := "39.6029,-77.0015".toList

/-- The hard-coded query passed to the coordinate stub (line 167). -/
def geoQuery : Str := "1100 Business Parkway S, Westminster, MD 21157".toList

/-- Candidate lookahead positions for `(?=City)` after a `Loc ` at `i`. -/
def cityAfter (s : Str) (i j : Nat) : Bool :=
  decide (i + 4 ≤ j) && occursAt cityM s j

/-- Pattern `Loc (?P<location>(?s).*(?=City))` matches at `i` iff the
marker occurs at `i` and `City` occurs at some `j ≥ i + 4`. -/
def locCand (s : Str) (i : Nat) : Bool :=
  occursAt locM s i && (findLastBelow (cityAfter s i) (s.length + 1)).isSome

/-- `location_custom_function` (lines 147-177): leftmost match; the greedy
`.*` runs to the last `City`; the group is stripped and paired with the
coordinate stub's answer.  A pattern miss is logged and `None` is
returned. -/
def location_custom_function (s : Str) : Option (Str × Str) :=
  match findFirstFrom (locCand s) 0 (s.length + 1) with
  | none => none
  | some i =>
    match findLastBelow (cityAfter s i) (s.length + 1) with
    | some j => some (stripL (extract s (i + 4) j), coordinates_custom_function geoQuery)
    | none => none

/-- The lookahead `(?=\*\*\*\sPremise)` matches at `k`. -/
def premiseAt (s : Str) (k : Nat) : Bool :=
  occursAt starsM s k && headSat isSpaceC s (k + 3) && occursAt premiseM s (k + 4)

/-- Candidate lookahead positions after a `Units\s` at `i`. -/
def premiseAfter (s : Str) (i k : Nat) : Bool :=
  decide (i + 6 ≤ k) && premiseAt s k

/-- Pattern `Units(?P<equipment>(\s(?s).*(?=\*\*\*\sPremise)))` matches at
`i` iff `Units` occurs at `i`, a whitespace character follows, and the
lookahead matches at some `k ≥ i + 6`. -/
def eqCand (s : Str) (i : Nat) : Bool :=
  occursAt unitsM s i && headSat isSpaceC s (i + 5) &&
  (findLastBelow (premiseAfter s i) (s.length + 1)).isSome

/-- The raw group captured by the equipment pattern: starts at the mandatory
whitespace character, greedy `.*` runs to the last lookahead position. -/
def equipmentSpan? (s : Str) : Option Str :=
  match findFirstFrom (eqCand s) 0 (s.length + 1) with
  | none => none
  | some i =>
    match findLastBelow (premiseAfter s i) (s.length + 1) with
    | some j => some (extract s (i + 5) j)
    | none => none

/-- `equipment_custom_function` (lines 180-207): strip the group, split on
`", "`, and turn the all-empty split `[""]` into the empty list.  A pattern
miss is logged and `None` is returned. -/
def equipment_custom_function (s : Str) : Option (List Str) :=
  match equipmentSpan? s with
  | none => none
  | some span =>
    let result := splitOnSep commaSp (stripL span)
    some (if result = [[]] then [] else result)

/-- Candidate lookahead positions for `(?=Prty)` after a `Remarks ` at `i`. -/
def prtyAfter (s : Str) (i j : Nat) : Bool :=
  decide (i + 8 ≤ j) && occursAt prtyM s j

/-- Pattern `Remarks (?P<remarks>(?s).*(?=Prty))` matches at `i` iff the
marker occurs at `i` and `Prty` occurs at some `j ≥ i + 8`. -/
def rmCand (s : Str) (i : Nat) : Bool :=
  occursAt remarksM s i && (findLastBelow (prtyAfter s i) (s.length + 1)).isSome

/-- `remarks_custom_function` (lines 223-238): leftmost match; the greedy
`.*` runs to the last `Prty`; the group is stripped and embedded newlines
are replaced by spaces.  No match returns `None` (not an error). -/
def remarks_custom_function (s : Str) : Option Str :=
  match findFirstFrom (rmCand s) 0 (s.length + 1) with
  | none => none
  | some i =>
    match findLastBelow (prtyAfter s i) (s.length + 1) with
    | some j =>
      some (List.map (fun c => if c = '\n' then ' ' else c) (stripL (extract s (i + 8) j)))
    | none => none

/-! ### The wall clock and `time_custom_function` -/

/-- A wall-clock reading, as the fields `strftime` formats. -/
structure DateTime where
  year : Nat
  month : Nat
  day : Nat
  hour : Nat
  minute : Nat
  second : Nat
deriving DecidableEq, Repr

/-- Ranges `datetime.datetime.today()` can actually produce (the year is
four digits for every present-day reading, so `%Y` prints four digits). -/
def validDT (t : DateTime) : Prop :=
  1000 ≤ t.year ∧ t.year ≤ 9999 ∧ 1 ≤ t.month ∧ t.month ≤ 12 ∧
  1 ≤ t.day ∧ t.day ≤ 31 ∧ t.hour ≤ 23 ∧ t.minute ≤ 59 ∧ t.second ≤ 59

instance (t : DateTime) : Decidable (validDT t) := by unfold validDT; infer_instance

/-- The ASCII digit character for `n` (meaningful for `n ≤ 9`, the range
produced by the zero-padded `strftime` fields). -/
def digitChar (n : Nat) : Char := Char.ofNat (48 + n)

def pad2 (n : Nat) : Str := [digitChar (n / 10 % 10), digitChar (n % 10)]

def pad4 (n : Nat) : Str :=
  [digitChar (n / 1000 % 10), digitChar (n / 100 % 10), digitChar (n / 10 % 10),
   digitChar (n % 10)]

/-- `strftime("%Y-%m-%d %H:%M:%S")` on a wall-clock reading. -/
def formatDateTime (t : DateTime) : Str :=
  pad4 t.year ++ '-' :: pad2 t.month ++ '-' :: pad2 t.day ++ ' ' :: pad2 t.hour ++
    ':' :: pad2 t.minute ++ ':' :: pad2 t.second

/-- `time_custom_function` (lines 210-220): ignores the message and formats
the current wall-clock reading, which the embedding threads in as `now`. -/
def time_custom_function (now : DateTime) (data : Str) : Str := formatDateTime now

/-- Numeric value of an ASCII digit character. -/
def digitVal? (c : Char) : Option Nat :=
  if 48 ≤ c.toNat ∧ c.toNat ≤ 57 then some (c.toNat - 48) else none

def digit2? (a b : Char) : Option Nat :=
  match digitVal? a, digitVal? b with
  | some x, some y => some (10 * x + y)
  | _, _ => none

def digit4? (a b c d : Char) : Option Nat :=
  match digitVal? a, digitVal? b, digitVal? c, digitVal? d with
  | some w, some x, some y, some z => some (1000 * w + 100 * x + 10 * y + z)
  | _, _, _, _ => none

/-- Strict parser for the `YYYY-MM-DD HH:MM:SS` layout (the inverse reading
of the timestamp, with second precision). -/
def parseTimestamp (s : Str) : Option DateTime :=
  match s with
  | [a, b, c, d, e1, f, g, e2, h1, i1, e3, j, k, e4, l, m1, e5, n, o] =>
    if e1 = '-' && e2 = '-' && e3 = ' ' && e4 = ':' && e5 = ':' then
      match digit4? a b c d, digit2? f g, digit2? h1 i1, digit2? j k,
            digit2? l m1, digit2? n o with
      | some yy, some mo, some dd, some hh, some mi, some ss =>
        some ⟨yy, mo, dd, hh, mi, ss⟩
      | _, _, _, _, _, _ => none
    else none
  | _ => none

/-! ### The record and the batch pipeline (`parse_data`, lines 260-305) -/

/-- The per-message dictionary built by `parse_data`.  The `number`,
`call_type` and `equipment` keys are always inserted (possibly with value
`None`); the `location` and `coordinates` keys are inserted together, only
when the location extraction succeeded — that pair of keys is modelled by
the single optional field `loc_coords`. -/
structure FormattedDict where
  number : Option Str
  call_type : Option Str
  loc_coords : Option (Str × Str)
  equipment : Option (List Str)
  remarks : Str
  time : Str
deriving DecidableEq, Repr

/-- The key set of the dictionary, in insertion order (lines 272-300). -/
def FormattedDict.keys (r : FormattedDict) : List String :=
  ["number", "call_type"] ++
    (match r.loc_coords with
     | some _ => ["location", "coordinates"]
     | none => []) ++
    ["equipment", "remarks", "time"]

/-- Python truthiness of an optional string value: `None` and `""` are
falsy (the test on line 302). -/
def pyTruthy : Option Str → Bool
  | none => false
  | some s => !s.isEmpty

/-- Line 281-289: `location = location_tuple[0]` when the tuple is present,
otherwise `location = None`. -/
def locationOf (msg : Str) : Option Str :=
  match location_custom_function msg with
  | some lc => some lc.1
  | none => none

/-- Lines 294-297: a missing remarks extraction is replaced by the literal
string `"None"`. -/
def strNone : Str := "None".toList

def remarksOf (msg : Str) : Str :=
  match remarks_custom_function msg with
  | some r => r
  | none => strNone

/-- Lines 272-300: the dictionary assembled for one message. -/
def mkRecord (now : DateTime) (msg : Str) : FormattedDict :=
  { number := incident_number_custom_function msg
    call_type := call_type_custom_function msg
    loc_coords := location_custom_function msg
    equipment := equipment_custom_function msg
    remarks := remarksOf msg
    time := time_custom_function now msg }

/-- Line 302: `if number and location and call_type and equipment is not
None` — Python precedence binds `is not None` to `equipment` alone, the
other three conjuncts are truthiness tests. -/
def keepMsg (msg : Str) : Bool :=
  pyTruthy (incident_number_custom_function msg) && pyTruthy (locationOf msg) &&
  pyTruthy (call_type_custom_function msg) &&
  (equipment_custom_function msg).isSome

/-- `parse_data` (lines 260-305): assemble a dictionary per message and keep
it only when the completeness test passes, preserving order. -/
def parse_data (now : DateTime) : List Str → List FormattedDict
  | [] => []
  | msg :: rest =>
    (if keepMsg msg then [mkRecord now msg] else []) ++ parse_data now rest

/-- Every field of the record except the wall-clock `time`. -/
def stripTime (r : FormattedDict) :
    Option Str × Option Str × Option (Str × Str) × Option (List Str) × Str :=
  (r.number, r.call_type, r.loc_coords, r.equipment, r.remarks)

/-! ### Concrete messages and a concrete clock used to instantiate the
theorems below -/

/-- The end-to-end sample message of the specification (§8). -/
def msg6 : Str :=
  ("Call Type AB (MEDICAL)\nIncident No 12345\nLoc 123 Main St\nCity Anywhere\n" ++
   "Units E10, A12 *** Premise\nRemarks patient breathing Prty 1").toList

/-- A fixed wall-clock reading. -/
def now0 : DateTime := ⟨2026, 10, 12, 8, 30, 45⟩

/-- A message whose `Units` and `*** Premise` markers are adjacent: nothing
at all stands between them. -/
def msgAdj : Str :=
  ("Call Type AB (FIRE)\nIncident No 77\nLoc 5 Elm\nCity Here\n" ++
   "Units*** Premise\nRemarks x Prty 1").toList

/-- A message with a single space between the `Units` and `*** Premise`
markers. -/
def msgWs : Str :=
  ("Call Type AB (FIRE)\nIncident No 77\nLoc 5 Elm\nCity Here\n" ++
   "Units *** Premise\nRemarks x Prty 1").toList

/-- An otherwise complete message with no `Remarks ... Prty` span. -/
def msgNoRem : Str :=
  ("Call Type AB (FIRE)\nIncident No 9\nLoc 2 Oak\nCity There\n" ++
   "Units E1 *** Premise").toList

/-- A message on which the location pattern matches with an empty captured
address (`Loc` immediately followed by `City`). -/
def msgEmptyLoc : Str := "Loc City".toList

/-- A message with only whitespace between the equipment markers and every
other required field present. -/
def msgWsEq : Str :=
  ("Call Type AB (GAS)\nIncident No 8\nLoc 1 Ash\nCity Ward\n" ++
   "Units *** Premise\nRemarks y Prty 2").toList

/-- A message with two `City` occurrences after its `Loc ` marker. -/
def msgGreedy : Str := "Loc 1 City X City".toList

/-- A lowercase rendition of the location markers. -/
def msgLower : Str := "loc 5 city".toList

/-! ### Search-scan lemmas -/

theorem findFirstFrom_some {p : Nat → Bool} :
    ∀ {fuel i j : Nat}, findFirstFrom p i fuel = some j →
      p j = true ∧ i ≤ j ∧ j < i + fuel ∧ ∀ k, i ≤ k → k < j → p k = false := by
  intro fuel
  induction fuel with
  | zero => intro i j h; simp [findFirstFrom] at h
  | succ m ih =>
    intro i j h
    rw [findFirstFrom] at h
    cases hp : p i with
    | true =>
      rw [hp] at h; simp at h; subst h
      exact ⟨hp, Nat.le_refl _, by omega, fun k hk1 hk2 => absurd (Nat.lt_of_le_of_lt hk1 hk2) (Nat.lt_irrefl _)⟩
    | false =>
      rw [hp] at h; simp at h
      obtain ⟨h1, h2, h3, h4⟩ := ih h
      refine ⟨h1, by omega, by omega, fun k hk1 hk2 => ?_⟩
      rcases Nat.eq_or_lt_of_le hk1 with heq | hlt
      · exact heq ▸ hp
      · exact h4 k hlt hk2

theorem findFirstFrom_eq_none {p : Nat → Bool} :
    ∀ {fuel i : Nat}, findFirstFrom p i fuel = none ↔ ∀ k, i ≤ k → k < i + fuel → p k = false := by
  intro fuel
  induction fuel with
  | zero => intro i; simp [findFirstFrom]; intro k h1 h2; omega
  | succ m ih =>
    intro i
    rw [findFirstFrom]
    cases hp : p i with
    | true =>
      rw [if_pos rfl]
      constructor
      · intro h; exact Option.noConfusion h
      · intro hall
        have hfalse := hall i (Nat.le_refl _) (by omega)
        rw [hfalse] at hp
        exact Bool.noConfusion hp
    | false =>
      simp only [Bool.false_eq_true, if_false]
      rw [ih]
      constructor
      · intro hall k hk1 hk2
        rcases Nat.eq_or_lt_of_le hk1 with heq | hlt
        · exact heq ▸ hp
        · exact hall k hlt (by omega)
      · intro hall k hk1 hk2
        exact hall k (by omega) (by omega)

theorem findLastBelow_some {p : Nat → Bool} :
    ∀ {n j : Nat}, findLastBelow p n = some j →
      p j = true ∧ j < n ∧ ∀ k, j < k → k < n → p k = false := by
  intro n
  induction n with
  | zero => intro j h; simp [findLastBelow] at h
  | succ m ih =>
    intro j h
    rw [findLastBelow] at h
    cases hp : p m with
    | true =>
      rw [hp] at h; simp at h; subst h
      exact ⟨hp, Nat.lt_succ_self _, fun k hk1 hk2 => by omega⟩
    | false =>
      rw [hp] at h; simp at h
      obtain ⟨h1, h2, h3⟩ := ih h
      refine ⟨h1, by omega, fun k hk1 hk2 => ?_⟩
      rcases (by omega : k = m ∨ k < m) with heq | hlt
      · exact heq ▸ hp
      · exact h3 k hk1 hlt

theorem findLastBelow_eq_none {p : Nat → Bool} :
    ∀ {n : Nat}, findLastBelow p n = none ↔ ∀ k, k < n → p k = false := by
  intro n
  induction n with
  | zero => simp [findLastBelow]
  | succ m ih =>
    rw [findLastBelow]
    cases hp : p m with
    | true =>
      rw [if_pos rfl]
      constructor
      · intro h; exact Option.noConfusion h
      · intro hall
        have hfalse := hall m (Nat.lt_succ_self _)
        rw [hfalse] at hp
        exact Bool.noConfusion hp
    | false =>
      simp only [Bool.false_eq_true, if_false]
      rw [ih]
      constructor
      · intro hall k hk
        rcases (by omega : k = m ∨ k < m) with heq | hlt
        · exact heq ▸ hp
        · exact hall k hlt
      · intro hall k hk
        exact hall k (by omega)

theorem findLastBelow_isSome_iff {p : Nat → Bool} {n : Nat} :
    (findLastBelow p n).isSome = true ↔ ∃ k, k < n ∧ p k = true := by
  cases h : findLastBelow p n with
  | none =>
    constructor
    · intro hf; exact Bool.noConfusion hf
    · rintro ⟨k, hk, hp⟩
      rw [findLastBelow_eq_none.mp h k hk] at hp
      exact Bool.noConfusion hp
  | some j =>
    obtain ⟨h1, h2, _⟩ := findLastBelow_some h
    exact ⟨fun _ => ⟨j, h2, h1⟩, fun _ => rfl⟩

theorem findFirstFrom_isSome_iff {p : Nat → Bool} {n : Nat} :
    (findFirstFrom p 0 n).isSome = true ↔ ∃ i, i < n ∧ p i = true := by
  cases h : findFirstFrom p 0 n with
  | none =>
    constructor
    · intro hf; exact Bool.noConfusion hf
    · rintro ⟨i, hi, hp⟩
      rw [findFirstFrom_eq_none.mp h i (Nat.zero_le _) (by omega)] at hp
      exact Bool.noConfusion hp
  | some j =>
    obtain ⟨h1, _, h3, _⟩ := findFirstFrom_some h
    exact ⟨fun _ => ⟨j, by omega, h1⟩, fun _ => rfl⟩

/-! ### String-scan lemmas -/

theorem occursAt_bound {pat s : Str} {i : Nat} (hpat : pat ≠ [])
    (h : occursAt pat s i = true) : i + pat.length ≤ s.length := by
  unfold occursAt at h
  have hp : pat <+: List.drop i s := List.isPrefixOf_iff_prefix.mp h
  have hl := hp.length_le
  rw [List.length_drop] at hl
  have hp1 : 1 ≤ pat.length := by
    cases pat with
    | nil => exact absurd rfl hpat
    | cons c t => simp
  omega

theorem dropWhile_eq_self_of_forall {p : Char → Bool} {l : Str}
    (h : ∀ a ∈ l, p a = false) : List.dropWhile p l = l := by
  cases l with
  | nil => rfl
  | cons c t => simp [List.dropWhile_cons, h c (by simp)]

theorem dropWhile_eq_nil_of_forall {p : Char → Bool} :
    ∀ {l : Str}, (∀ a ∈ l, p a = true) → List.dropWhile p l = [] := by
  intro l
  induction l with
  | nil => intro _; rfl
  | cons c t ih =>
    intro h
    rw [List.dropWhile_cons, h c (by simp)]
    simp only [if_true]
    exact ih (fun a ha => h a (by simp [ha]))

theorem stripL_eq_nil_of_forall {l : Str} (h : ∀ a ∈ l, isSpaceC a = true) :
    stripL l = [] := by
  unfold stripL
  rw [dropWhile_eq_nil_of_forall h]
  rfl

theorem stripL_eq_self_of_forall {l : Str} (h : ∀ a ∈ l, isSpaceC a = false) :
    stripL l = l := by
  unfold stripL
  rw [dropWhile_eq_self_of_forall h,
      dropWhile_eq_self_of_forall (fun a ha => h a (List.mem_reverse.mp ha)),
      List.reverse_reverse]

theorem isSpaceC_eq_false_of_isDigitC {c : Char} (h : isDigitC c = true) :
    isSpaceC c = false := by
  simp only [isDigitC, decide_eq_true_eq] at h
  simp only [isSpaceC, decide_eq_false_iff_not]
  omega

/-! ### Pipeline helper lemmas -/

theorem pyTruthy_isSome {o : Option Str} (h : pyTruthy o = true) : o.isSome = true := by
  cases o with
  | none => cases h
  | some s => rfl

theorem mem_parse_data {now : DateTime} {data : List Str} {r : FormattedDict}
    (h : r ∈ parse_data now data) :
    ∃ msg, msg ∈ data ∧ keepMsg msg = true ∧ r = mkRecord now msg := by
  induction data with
  | nil => simp [parse_data] at h
  | cons msg rest ih =>
    rw [parse_data] at h
    rcases List.mem_append.mp h with h1 | h2
    · cases hk : keepMsg msg with
      | false => rw [hk] at h1; simp at h1
      | true =>
        rw [hk] at h1; simp at h1
        exact ⟨msg, by simp, hk, h1⟩
    · obtain ⟨m, hm, hk, hr⟩ := ih h2
      exact ⟨m, by simp [hm], hk, hr⟩

/-! ### Per-extractor characterizations -/

theorem locCand_iff {s : Str} {i : Nat} :
    locCand s i = true ↔
      occursAt locM s i = true ∧ ∃ j, i + 4 ≤ j ∧ occursAt cityM s j = true := by
  unfold locCand
  rw [Bool.and_eq_true]
  constructor
  · rintro ⟨h1, h2⟩
    refine ⟨h1, ?_⟩
    obtain ⟨k, hk, hck⟩ := findLastBelow_isSome_iff.mp h2
    unfold cityAfter at hck
    rw [Bool.and_eq_true, decide_eq_true_eq] at hck
    exact ⟨k, hck.1, hck.2⟩
  · rintro ⟨h1, j, hj1, hj2⟩
    refine ⟨h1, findLastBelow_isSome_iff.mpr ⟨j, ?_, ?_⟩⟩
    · have hb := occursAt_bound (by decide : cityM ≠ []) hj2
      have hc4 : cityM.length = 4 := by decide
      omega
    · unfold cityAfter
      rw [Bool.and_eq_true, decide_eq_true_eq]
      exact ⟨hj1, hj2⟩

theorem headSat_some {p : Char → Bool} {s : Str} {k : Nat} (h : headSat p s k = true) :
    ∃ ch t, List.drop k s = ch :: t ∧ p ch = true := by
  unfold headSat at h
  cases hd : List.drop k s with
  | nil => rw [hd] at h; exact Bool.noConfusion h
  | cons ch t => rw [hd] at h; exact ⟨ch, t, rfl, h⟩

theorem location_snd {s a c : Str} (h : location_custom_function s = some (a, c)) :
    c = "39.6029,-77.0015".toList := by
  unfold location_custom_function at h
  split at h
  · exact Option.noConfusion h
  · split at h
    · have h2 := Option.some.inj h
      rw [Prod.mk.injEq] at h2
      exact h2.2.symm
    · exact Option.noConfusion h

theorem number_shape {s n : Str} (h : incident_number_custom_function s = some n) :
    n ≠ [] ∧ ∀ ch ∈ n, isDigitC ch = true := by
  unfold incident_number_custom_function at h
  split at h
  · exact Option.noConfusion h
  · next i hf =>
    have h2 := Option.some.inj h
    obtain ⟨hc, _, _, _⟩ := findFirstFrom_some hf
    unfold numCand at hc
    rw [Bool.and_eq_true] at hc
    obtain ⟨ch, t, hdrop, hd⟩ := headSat_some hc.2
    rw [hdrop] at h2
    have htw : List.takeWhile isDigitC (ch :: t) = ch :: List.takeWhile isDigitC t := by
      rw [List.takeWhile_cons, hd]
      simp
    have hall : ∀ a ∈ List.takeWhile isDigitC (ch :: t), isDigitC a = true :=
      fun a ha => List.mem_takeWhile_imp ha
    have hstrip : stripL (List.takeWhile isDigitC (ch :: t)) =
        List.takeWhile isDigitC (ch :: t) :=
      stripL_eq_self_of_forall (fun a ha => isSpaceC_eq_false_of_isDigitC (hall a ha))
    rw [hstrip] at h2
    subst h2
    refine ⟨?_, hall⟩
    rw [htw]
    simp

/-! ### Timestamp round-trip lemmas -/

theorem digitVal?_digitChar {m : Nat} (hm : m < 10) :
    digitVal? (digitChar m) = some m := by
  interval_cases m <;> decide

theorem parseTimestamp_format {t : DateTime} (h : validDT t) :
    parseTimestamp (formatDateTime t) = some t := by
  obtain ⟨y, mo, d, hh, mi, ss⟩ := t
  have hval : 1000 ≤ y ∧ y ≤ 9999 ∧ 1 ≤ mo ∧ mo ≤ 12 ∧ 1 ≤ d ∧ d ≤ 31 ∧
      hh ≤ 23 ∧ mi ≤ 59 ∧ ss ≤ 59 := h
  obtain ⟨hy1, hy2, hm1, hm2, hd1, hd2, hh1, hmi1, hs1⟩ := hval
  have hv : ∀ x : Nat, digitVal? (digitChar (x % 10)) = some (x % 10) :=
    fun x => digitVal?_digitChar (Nat.mod_lt _ (by omega))
  have e1 : formatDateTime ⟨y, mo, d, hh, mi, ss⟩ =
      [digitChar (y / 1000 % 10), digitChar (y / 100 % 10), digitChar (y / 10 % 10),
       digitChar (y % 10), '-', digitChar (mo / 10 % 10), digitChar (mo % 10), '-',
       digitChar (d / 10 % 10), digitChar (d % 10), ' ',
       digitChar (hh / 10 % 10), digitChar (hh % 10), ':',
       digitChar (mi / 10 % 10), digitChar (mi % 10), ':',
       digitChar (ss / 10 % 10), digitChar (ss % 10)] := by
    simp [formatDateTime, pad4, pad2]
  rw [e1]
  have hmod : ∀ x : Nat, digitVal? (digitChar (x % 10)) = some (x % 10) := hv
  simp only [parseTimestamp, digit4?, digit2?, hmod]
  norm_num
  refine ⟨by omega, by omega, by omega, by omega, by omega, by omega⟩

/-! ### The claims -/

set_option maxRecDepth 1000000

set_option maxHeartbeats 2000000

/-- C5: for every wall-clock reading and every input, the time extractor
succeeds (it is a total function), returns the current reading formatted as
`YYYY-MM-DD HH:MM:SS`, and that value parses back to the same reading with
second precision.  (In the source any internal error would be re-raised as
`ParsingError` rather than swallowed; the pure embedding has no internal
error states, so the escalation clause is vacuously respected.) -/
theorem C5_time_total_and_parseable :
    ∀ (now : DateTime) (data : Str),
      time_custom_function now data = formatDateTime now ∧
      (validDT now → parseTimestamp (time_custom_function now data) = some now) :=
  fun now data => ⟨rfl, fun h => parseTimestamp_format h⟩

/-- C5 witness: the theorem instantiated at a concrete clock reading and
input, with the validity hypothesis discharged by computation. -/
theorem C5_witness :
    time_custom_function now0 [] = formatDateTime now0 ∧
    parseTimestamp (time_custom_function now0 []) = some now0 :=
  ⟨(C5_time_total_and_parseable now0 []).1,
   (C5_time_total_and_parseable now0 []).2 (by decide)⟩

/-- C6: on the specification's sample message the pipeline emits exactly
one record, whose fields are the expected constants, together with the
current wall-clock timestamp in the `time` field. -/
theorem C6_end_to_end :
    ∀ now : DateTime,
      parse_data now [msg6] =
        [{ number := some ("12345".toList),
           call_type := some ("AB (MEDICAL)".toList),
           loc_coords := some ("123 Main St".toList, "39.6029,-77.0015".toList),
           equipment := some ["E10".toList, "A12".toList],
           remarks := "patient breathing".toList,
           time := formatDateTime now }] := by
  intro now
  have hk : keepMsg msg6 = true := by decide
  have h1 : incident_number_custom_function msg6 = some ("12345".toList) := by decide
  have h2 : call_type_custom_function msg6 = some ("AB (MEDICAL)".toList) := by decide
  have h3 : location_custom_function msg6 =
      some ("123 Main St".toList, "39.6029,-77.0015".toList) := by decide
  have h4 : equipment_custom_function msg6 = some ["E10".toList, "A12".toList] := by decide
  have h5 : remarks_custom_function msg6 = some ("patient breathing".toList) := by decide
  simp [parse_data, hk, mkRecord, h1, h2, h3, h4, remarksOf, h5, time_custom_function]

/-- C7: two runs of the pipeline over the same message collection, at any
two wall-clock readings, produce record sequences of equal length that
agree on every field except `time`. -/
theorem C7_rerun_agrees_except_time :
    ∀ (now1 now2 : DateTime) (data : List Str),
      (parse_data now1 data).length = (parse_data now2 data).length ∧
      (parse_data now1 data).map stripTime = (parse_data now2 data).map stripTime := by
  intro now1 now2 data
  have hmap : ∀ d : List Str,
      (parse_data now1 d).map stripTime = (parse_data now2 d).map stripTime := by
    intro d
    induction d with
    | nil => simp [parse_data]
    | cons msg rest ih =>
      cases hk : keepMsg msg with
      | false => simp [parse_data, hk, ih]
      | true => simp [parse_data, hk, ih, stripTime, mkRecord]
  constructor
  · have hlen := congrArg List.length (hmap data)
    simpa using hlen
  · exact hmap data

/-- C1: a record is appended by `parse_data` only when the number,
call-type, location and equipment extractions are all non-failing (an
empty equipment list is still a present `some` value), and the emission
decision is a function of those four extraction results alone — so the
remarks and coordinates outcomes (and the wall clock) can never block
emission; every emitted record is the fully assembled dictionary, no
partial record is ever emitted. -/
theorem C1_emission_policy :
    (∀ (now : DateTime) (data : List Str) (r : FormattedDict),
       r ∈ parse_data now data →
         r.number.isSome = true ∧ r.call_type.isSome = true ∧
         r.loc_coords.isSome = true ∧ r.equipment.isSome = true) ∧
    (∀ (now1 now2 : DateTime) (m1 m2 : Str),
       incident_number_custom_function m1 = incident_number_custom_function m2 →
       location_custom_function m1 = location_custom_function m2 →
       call_type_custom_function m1 = call_type_custom_function m2 →
       equipment_custom_function m1 = equipment_custom_function m2 →
       (parse_data now1 [m1]).length = (parse_data now2 [m2]).length) := by
  constructor
  · intro now data r hr
    obtain ⟨msg, _, hk, hrec⟩ := mem_parse_data hr
    unfold keepMsg at hk
    simp only [Bool.and_eq_true] at hk
    obtain ⟨⟨⟨hn, hl⟩, hc⟩, he⟩ := hk
    subst hrec
    refine ⟨pyTruthy_isSome hn, pyTruthy_isSome hc, ?_, he⟩
    show (location_custom_function msg).isSome = true
    unfold locationOf at hl
    cases hloc : location_custom_function msg with
    | none => rw [hloc] at hl; exact Bool.noConfusion hl
    | some lc => rfl
  · intro now1 now2 m1 m2 h1 h2 h3 h4
    have hk : keepMsg m1 = keepMsg m2 := by
      unfold keepMsg locationOf
      rw [h1, h2, h3, h4]
    simp only [parse_data, List.append_nil]
    rw [hk]
    cases keepMsg m2 <;> simp

/-- C1 witness: the theorem applied to the membership of the record the
pipeline emits for the sample message. -/
theorem C1_witness :
    (mkRecord now0 msg6).number.isSome = true ∧
    (mkRecord now0 msg6).call_type.isSome = true ∧
    (mkRecord now0 msg6).loc_coords.isSome = true ∧
    (mkRecord now0 msg6).equipment.isSome = true :=
  C1_emission_policy.1 now0 [msg6] (mkRecord now0 msg6) (by decide)

/-- C3: when no `Remarks ... Prty` span is present anywhere in the message
the remarks extractor returns the explicit no-remarks outcome `none` (it is
a total function, so nothing is raised to the caller), and the assembled
record carries the literal string `"None"` in its remarks field — also in
every record the pipeline emits for such a message. -/
theorem C3_remarks_absent_default :
    ∀ (now : DateTime) (msg : Str) (r : FormattedDict),
      (∀ i, i < msg.length + 1 →
         occursAt remarksM msg i = false ∨
         ∀ j, j < msg.length + 1 → i + 8 ≤ j → occursAt prtyM msg j = false) →
      remarks_custom_function msg = none ∧
      (mkRecord now msg).remarks = strNone ∧
      (r ∈ parse_data now [msg] → r.remarks = strNone) := by
  intro now msg r hno
  have hcands : ∀ k, k < msg.length + 1 → rmCand msg k = false := by
    intro k hk
    rcases hno k hk with hocc | hall
    · unfold rmCand
      rw [hocc]
      rfl
    · unfold rmCand
      have hnone : findLastBelow (prtyAfter msg k) (msg.length + 1) = none := by
        rw [findLastBelow_eq_none]
        intro j hj
        unfold prtyAfter
        by_cases hle : k + 8 ≤ j
        · rw [hall j hj hle]
          simp
        · simp [hle]
      rw [hnone]
      simp
  have hfnone : findFirstFrom (rmCand msg) 0 (msg.length + 1) = none := by
    rw [findFirstFrom_eq_none]
    intro k hk1 hk2
    exact hcands k (by omega)
  have hrm : remarks_custom_function msg = none := by
    unfold remarks_custom_function
    rw [hfnone]
  refine ⟨hrm, ?_, ?_⟩
  · unfold mkRecord remarksOf
    rw [hrm]
  · intro hr
    obtain ⟨m, hm, _, hrec⟩ := mem_parse_data hr
    simp at hm
    subst hm
    subst hrec
    unfold mkRecord remarksOf
    rw [hrm]

/-- C3 witness: the theorem applied to a concrete complete message with no
remarks span, the span-absence hypothesis discharged by computation. -/
theorem C3_witness :
    remarks_custom_function msgNoRem = none ∧
    (mkRecord now0 msgNoRem).remarks = strNone :=
  ⟨(C3_remarks_absent_default now0 msgNoRem (mkRecord now0 msgNoRem) (by decide)).1,
   (C3_remarks_absent_default now0 msgNoRem (mkRecord now0 msgNoRem) (by decide)).2.1⟩

/-- C9: the falsy completeness test on line 302 drops a message whose
location extraction succeeded with an empty trimmed address, yet does not
drop a message whose equipment extraction succeeded with an empty list
(when the other three tests pass, the record is emitted). -/
theorem C9_completeness_check_falsy :
    (∀ (now : DateTime) (msg c : Str),
       location_custom_function msg = some ([], c) → parse_data now [msg] = []) ∧
    (∀ (now : DateTime) (msg : Str),
       equipment_custom_function msg = some [] →
       pyTruthy (incident_number_custom_function msg) = true →
       pyTruthy (locationOf msg) = true →
       pyTruthy (call_type_custom_function msg) = true →
       parse_data now [msg] = [mkRecord now msg]) := by
  constructor
  · intro now msg c hloc
    have hk : keepMsg msg = false := by
      unfold keepMsg locationOf
      rw [hloc]
      simp [pyTruthy]
    simp [parse_data, hk]
  · intro now msg he hn hl hc
    have hk : keepMsg msg = true := by
      unfold keepMsg
      rw [hn, hl, hc, he]
      rfl
    simp [parse_data, hk]

/-- C9 witness: `"Loc City"` produces a successful location extraction with
empty address and is dropped, while a complete message with an empty
equipment list is emitted. -/
theorem C9_witness :
    parse_data now0 [msgEmptyLoc] = [] ∧
    parse_data now0 [msgWsEq] = [mkRecord now0 msgWsEq] :=
  ⟨C9_completeness_check_falsy.1 now0 msgEmptyLoc ("39.6029,-77.0015".toList) (by decide),
   C9_completeness_check_falsy.2 now0 msgWsEq (by decide) (by decide) (by decide) (by decide)⟩

/-- C10: every record emitted by the pipeline has exactly the seven keys
`number, call_type, location, coordinates, equipment, remarks, time` in
insertion order; its coordinates component is the constant placeholder
string; and its number is a non-empty string of decimal digits. -/
theorem C10_record_shape :
    ∀ (now : DateTime) (data : List Str) (r : FormattedDict),
      r ∈ parse_data now data →
        r.keys = ["number", "call_type", "location", "coordinates",
                  "equipment", "remarks", "time"] ∧
        (∃ lc, r.loc_coords = some lc ∧ lc.2 = "39.6029,-77.0015".toList) ∧
        (∃ n, r.number = some n ∧ n ≠ [] ∧ ∀ ch ∈ n, isDigitC ch = true) := by
  intro now data r hr
  obtain ⟨msg, _, hk, hrec⟩ := mem_parse_data hr
  unfold keepMsg at hk
  simp only [Bool.and_eq_true] at hk
  obtain ⟨⟨⟨hn, hl⟩, hc⟩, he⟩ := hk
  subst hrec
  unfold locationOf at hl
  cases hloc : location_custom_function msg with
  | none => rw [hloc] at hl; exact Bool.noConfusion hl
  | some lc =>
    obtain ⟨a, c⟩ := lc
    refine ⟨?_, ?_, ?_⟩
    · simp [mkRecord, FormattedDict.keys, hloc]
    · exact ⟨(a, c), by simp [mkRecord, hloc], location_snd hloc⟩
    · cases hnum : incident_number_custom_function msg with
      | none => rw [hnum] at hn; exact Bool.noConfusion hn
      | some n =>
        obtain ⟨hne, hdig⟩ := number_shape hnum
        exact ⟨n, by simp [mkRecord, hnum], hne, hdig⟩

/-- C10 witness: the theorem applied to the record emitted for the sample
message. -/
theorem C10_witness :
    (mkRecord now0 msg6).keys = ["number", "call_type", "location", "coordinates",
      "equipment", "remarks", "time"] ∧
    (∃ lc, (mkRecord now0 msg6).loc_coords = some lc ∧
       lc.2 = "39.6029,-77.0015".toList) ∧
    (∃ n, (mkRecord now0 msg6).number = some n ∧ n ≠ [] ∧
       ∀ ch ∈ n, isDigitC ch = true) :=
  C10_record_shape now0 [msg6] (mkRecord now0 msg6) (by decide)

/-- C2 counterexample: in `msgAdj` both markers are present with nothing at
all between them (`Units*** Premise` occurs at index 55) and every other
required field extracts successfully, yet the equipment extractor fails —
the pattern demands at least one whitespace character after `Units` — and
the message is dropped, so the claim's "nothing ... between them" case is
false on the code. -/
theorem C2_counterexample :
    occursAt ("Units*** Premise".toList) msgAdj 55 = true ∧
    pyTruthy (incident_number_custom_function msgAdj) = true ∧
    pyTruthy (locationOf msgAdj) = true ∧
    pyTruthy (call_type_custom_function msgAdj) = true ∧
    equipment_custom_function msgAdj = none ∧
    parse_data now0 [msgAdj] = [] := by
  decide

/-- C2 (amended): if the units/premise pattern matches nowhere — no
position carries `Units` followed by a whitespace character with the
`*** Premise` lookahead further right — the equipment extractor fails and
the message is dropped regardless of the other fields; and whenever the
pattern does match with an all-whitespace captured span (it always contains
at least the one mandatory whitespace character), the equipment extractor
returns the empty list and the record is retained when the other three
required tests pass. -/
theorem C2_amended_equipment :
    (∀ (now : DateTime) (msg : Str),
       (∀ i, i < msg.length + 1 →
          occursAt unitsM msg i = false ∨ headSat isSpaceC msg (i + 5) = false ∨
          ∀ k, k < msg.length + 1 → i + 6 ≤ k → premiseAt msg k = false) →
       equipment_custom_function msg = none ∧ parse_data now [msg] = []) ∧
    (∀ (now : DateTime) (msg span : Str),
       equipmentSpan? msg = some span →
       (∀ ch ∈ span, isSpaceC ch = true) →
       equipment_custom_function msg = some [] ∧
       (pyTruthy (incident_number_custom_function msg) = true →
        pyTruthy (locationOf msg) = true →
        pyTruthy (call_type_custom_function msg) = true →
        parse_data now [msg] = [mkRecord now msg])) := by
  constructor
  · intro now msg hno
    have hcands : ∀ k, k < msg.length + 1 → eqCand msg k = false := by
      intro k hk
      rcases hno k hk with hocc | hhead | hall
      · unfold eqCand
        rw [hocc]
        rfl
      · unfold eqCand
        rw [hhead]
        simp
      · unfold eqCand
        have hnone : findLastBelow (premiseAfter msg k) (msg.length + 1) = none := by
          rw [findLastBelow_eq_none]
          intro j hj
          unfold premiseAfter
          by_cases hle : k + 6 ≤ j
          · rw [hall j hj hle]
            simp
          · simp [hle]
        rw [hnone]
        simp
    have hfnone : findFirstFrom (eqCand msg) 0 (msg.length + 1) = none := by
      rw [findFirstFrom_eq_none]
      intro k hk1 hk2
      exact hcands k (by omega)
    have hspan : equipmentSpan? msg = none := by
      unfold equipmentSpan?
      rw [hfnone]
    have heq : equipment_custom_function msg = none := by
      unfold equipment_custom_function
      rw [hspan]
    refine ⟨heq, ?_⟩
    have hk : keepMsg msg = false := by
      unfold keepMsg
      rw [heq]
      simp
    simp [parse_data, hk]
  · intro now msg span hspan hsp
    have heq : equipment_custom_function msg = some [] := by
      simp only [equipment_custom_function, hspan]
      rw [stripL_eq_nil_of_forall hsp]
      rfl
    refine ⟨heq, fun hn hl hc => ?_⟩
    have hk : keepMsg msg = true := by
      unfold keepMsg
      rw [hn, hl, hc, heq]
      rfl
    simp [parse_data, hk]

/-- C2 witness: a single space between the markers gives `equipment = []`
and, the other fields being present, a retained record. -/
theorem C2_witness :
    equipment_custom_function msgWs = some [] ∧
    parse_data now0 [msgWs] = [mkRecord now0 msgWs] := by
  have h := C2_amended_equipment.2 now0 msgWs [' '] (by decide) (by decide)
  exact ⟨h.1, h.2 (by decide) (by decide) (by decide)⟩

/-- C4 counterexample: with two `City` occurrences after `Loc `, the code
captures up to the LAST one — `"Loc 1 City X City"` yields the address
`"1 City X"`, not the `"1"` a non-greedy match would give — and the
lowercase `"loc 5 city"` does not match at all, so the matching is neither
non-greedy nor case-insensitive. -/
theorem C4_counterexample :
    location_custom_function msgGreedy =
      some ("1 City X".toList, "39.6029,-77.0015".toList) ∧
    ("1 City X".toList : Str) ≠ "1".toList ∧
    location_custom_function msgLower = none := by
  decide

/-- C4 (amended): the location extractor matches case-sensitively and
across newlines; it succeeds exactly when some `Loc ` marker is followed
(at distance ≥ 4) by a `City` occurrence, anchoring at the FIRST such
marker position, and the greedy span runs to the LAST following `City`
occurrence; the captured span is trimmed of surrounding whitespace and
paired with the coordinate stub's constant string; it fails when the span
is absent. -/
theorem C4_location_first_loc_last_city :
    ∀ (s a c : Str),
      (location_custom_function s = some (a, c) →
        ∃ i j, occursAt locM s i = true ∧ i + 4 ≤ j ∧ occursAt cityM s j = true ∧
          (∀ i', i' < i →
             ¬(occursAt locM s i' = true ∧
               ∃ j', i' + 4 ≤ j' ∧ occursAt cityM s j' = true)) ∧
          (∀ j', j < j' → ¬(i + 4 ≤ j' ∧ occursAt cityM s j' = true)) ∧
          a = stripL (extract s (i + 4) j) ∧ c = "39.6029,-77.0015".toList) ∧
      (location_custom_function s = none →
        ∀ i, ¬(occursAt locM s i = true ∧
          ∃ j, i + 4 ≤ j ∧ occursAt cityM s j = true)) := by
  intro s a c
  constructor
  · intro h
    unfold location_custom_function at h
    split at h
    · exact Option.noConfusion h
    · next i hf =>
      split at h
      · next j hl =>
        have h2 := Option.some.inj h
        rw [Prod.mk.injEq] at h2
        obtain ⟨hf1, _, _, hf4⟩ := findFirstFrom_some hf
        obtain ⟨hl1, hl2, hl3⟩ := findLastBelow_some hl
        have hcj : i + 4 ≤ j ∧ occursAt cityM s j = true := by
          unfold cityAfter at hl1
          rw [Bool.and_eq_true, decide_eq_true_eq] at hl1
          exact hl1
        refine ⟨i, j, (locCand_iff.mp hf1).1, hcj.1, hcj.2, ?_, ?_, h2.1.symm, h2.2.symm⟩
        · intro i' hi' hbad
          have hcand : locCand s i' = true := locCand_iff.mpr hbad
          rw [hf4 i' (Nat.zero_le _) hi'] at hcand
          exact Bool.noConfusion hcand
        · intro j' hj' hbad
          by_cases hjlen : j' < s.length + 1
          · have hca : cityAfter s i j' = true := by
              unfold cityAfter
              rw [Bool.and_eq_true, decide_eq_true_eq]
              exact hbad
            rw [hl3 j' hj' hjlen] at hca
            exact Bool.noConfusion hca
          · have hb := occursAt_bound (by decide : cityM ≠ []) hbad.2
            have hc4 : cityM.length = 4 := by decide
            omega
      · exact Option.noConfusion h
  · intro h i hbad
    have hc : locCand s i = true := locCand_iff.mpr hbad
    unfold location_custom_function at h
    split at h
    · next hf =>
      have hnone := findFirstFrom_eq_none.mp hf
      have hb := occursAt_bound (by decide : locM ≠ []) hbad.1
      have hl4 : locM.length = 4 := by decide
      have hfalse : locCand s i = false := hnone i (Nat.zero_le _) (by omega)
      rw [hfalse] at hc
      exact Bool.noConfusion hc
    · next i0 hf =>
      split at h
      · exact Option.noConfusion h
      · next hl =>
        obtain ⟨hf1, _, _, _⟩ := findFirstFrom_some hf
        unfold locCand at hf1
        rw [Bool.and_eq_true] at hf1
        have hsome := hf1.2
        rw [hl] at hsome
        exact Bool.noConfusion hsome

/-- C4 witness: the amended theorem applied to the two-City message. -/
theorem C4_witness :
    ∃ i j, occursAt locM msgGreedy i = true ∧ i + 4 ≤ j ∧
      occursAt cityM msgGreedy j = true ∧
      (∀ i', i' < i → ¬(occursAt locM msgGreedy i' = true ∧
         ∃ j', i' + 4 ≤ j' ∧ occursAt cityM msgGreedy j' = true)) ∧
      (∀ j', j < j' → ¬(i + 4 ≤ j' ∧ occursAt cityM msgGreedy j' = true)) ∧
      "1 City X".toList = stripL (extract msgGreedy (i + 4) j) ∧
      ("39.6029,-77.0015".toList : Str) = "39.6029,-77.0015".toList :=
  (C4_location_first_loc_last_city msgGreedy ("1 City X".toList)
    ("39.6029,-77.0015".toList)).1 (by decide)

/-- C8: each of the five pattern extractors is a total function on
arbitrary message text — for every input it either returns a value or the
explicit failure `none`, and it returns a value exactly when its pattern
matches at some position.  (The Python code reaches `None` by catching any
exception and logging it; a total pure function is the shallow image of
"never propagates an exception to the calling pipeline".) -/
theorem C8_extractors_never_crash :
    ∀ msg : Str,
      ((call_type_custom_function msg).isSome = true ↔
         ∃ i, i < msg.length + 1 ∧ ctCand msg i = true) ∧
      ((incident_number_custom_function msg).isSome = true ↔
         ∃ i, i < msg.length + 1 ∧ numCand msg i = true) ∧
      ((location_custom_function msg).isSome = true ↔
         ∃ i, i < msg.length + 1 ∧ locCand msg i = true) ∧
      ((equipment_custom_function msg).isSome = true ↔
         ∃ i, i < msg.length + 1 ∧ eqCand msg i = true) ∧
      ((remarks_custom_function msg).isSome = true ↔
         ∃ i, i < msg.length + 1 ∧ rmCand msg i = true) := by
  intro msg
  refine ⟨?_, ?_, ?_, ?_, ?_⟩
  · unfold call_type_custom_function
    rw [← findFirstFrom_isSome_iff]
    cases hf : findFirstFrom (ctCand msg) 0 (msg.length + 1) with
    | none => simp
    | some i =>
      obtain ⟨hc, _, _, _⟩ := findFirstFrom_some hf
      unfold ctCand at hc
      simp only [Bool.and_eq_true] at hc
      obtain ⟨k, hk, hck⟩ := findLastBelow_isSome_iff.mp hc.2
      cases hl : findLastBelow (ctCloseCand msg i) (msg.length + 1) with
      | none =>
        rw [findLastBelow_eq_none.mp hl k hk] at hck
        exact Bool.noConfusion hck
      | some j => simp [hl]
  · unfold incident_number_custom_function
    rw [← findFirstFrom_isSome_iff]
    cases hf : findFirstFrom (numCand msg) 0 (msg.length + 1) <;> simp
  · unfold location_custom_function
    rw [← findFirstFrom_isSome_iff]
    cases hf : findFirstFrom (locCand msg) 0 (msg.length + 1) with
    | none => simp
    | some i =>
      obtain ⟨hc, _, _, _⟩ := findFirstFrom_some hf
      unfold locCand at hc
      simp only [Bool.and_eq_true] at hc
      obtain ⟨k, hk, hck⟩ := findLastBelow_isSome_iff.mp hc.2
      cases hl : findLastBelow (cityAfter msg i) (msg.length + 1) with
      | none =>
        rw [findLastBelow_eq_none.mp hl k hk] at hck
        exact Bool.noConfusion hck
      | some j => simp [hl]
  · have hstep : (equipment_custom_function msg).isSome = (equipmentSpan? msg).isSome := by
      unfold equipment_custom_function
      cases hs : equipmentSpan? msg <;> simp
    rw [hstep]
    unfold equipmentSpan?
    rw [← findFirstFrom_isSome_iff]
    cases hf : findFirstFrom (eqCand msg) 0 (msg.length + 1) with
    | none => simp
    | some i =>
      obtain ⟨hc, _, _, _⟩ := findFirstFrom_some hf
      unfold eqCand at hc
      simp only [Bool.and_eq_true] at hc
      obtain ⟨k, hk, hck⟩ := findLastBelow_isSome_iff.mp hc.2
      cases hl : findLastBelow (premiseAfter msg i) (msg.length + 1) with
      | none =>
        rw [findLastBelow_eq_none.mp hl k hk] at hck
        exact Bool.noConfusion hck
      | some j => simp [hl]
  · unfold remarks_custom_function
    rw [← findFirstFrom_isSome_iff]
    cases hf : findFirstFrom (rmCand msg) 0 (msg.length + 1) with
    | none => simp
    | some i =>
      obtain ⟨hc, _, _, _⟩ := findFirstFrom_some hf
      unfold rmCand at hc
      simp only [Bool.and_eq_true] at hc
      obtain ⟨k, hk, hck⟩ := findLastBelow_isSome_iff.mp hc.2
      cases hl : findLastBelow (prtyAfter msg i) (msg.length + 1) with
      | none =>
        rw [findLastBelow_eq_none.mp hl k hk] at hck
        exact Bool.noConfusion hck
      | some j => simp [hl]

/-- C8 witness: the number characterization applied to the sample message,
producing its concrete matching position. -/
theorem C8_witness :
    ∃ i, i < msg6.length + 1 ∧ numCand msg6 i = true :=
  (C8_extractors_never_crash msg6).2.1.mp (by decide)
